import Mathlib

/-!
# Verification of the amcat4 aggregation engine (`amcat4/aggregate.py`)

A shallow embedding of the aggregation core: axis/aggregation value
objects, index binding, bucket-source DSL generation, bucket decoding,
cursor-based composite pagination, the `_query` pseudo-axis fan-out, and
the axis-less scalar path.

Modelling conventions:
* Python scalar values flowing through buckets are an inductive `EValue`
  (null, integer, string, timestamp, calendar date).  A timestamp
  `EValue.vdatetime ms` stands for `datetime.utcfromtimestamp(ms / 1000.)`;
  truncating it with `.date()` yields `EValue.vdate (ms.fdiv 86400000)`.
* Python dicts are association lists; `dict[k]` is `lookupE` (a missing
  key, Python's `KeyError`, is an `Except.error`).
* Fallible code returns `Except String`; an uncaught Python exception is
  an `Except.error`, which also models that `list(generator)` in
  `query_aggregate` discards everything a generator yielded before raising.
* The Elasticsearch client is an explicit `Backend` record of oracles; the
  successive pages a composite aggregation returns are a `List Page`, and
  every call issued to the backend is recorded as a `Call` in a trace.
* The recursion of `_aggregate_results` (which strips one `_query` axis
  per step) is driven by a fuel argument; `_aggregate_results` supplies
  `axes.length`, which always suffices because each step removes one axis.
-/

deriving instance DecidableEq for Except

namespace Amcat4

/-- Runtime field expression map (`runtime_mappings`), a dict name → expression. -/
abbrev RuntimeMappings := List (String × String)

/-- Scalar values flowing through Elasticsearch buckets and decoded rows. -/
inductive EValue where
  | vnull
  | vint (n : Int)
  | vstr (s : String)
  | vdatetime (ms : Int)
  | vdate (day : Int)
deriving DecidableEq, Repr

/-- Python truthiness of a scalar value (`if result:`). -/
def EValue.truthy : EValue → Bool
  | .vnull => false
  | .vint n => n != 0
  | .vstr s => !s.isEmpty
  | .vdatetime _ => true
  | .vdate _ => true

/-- `datetime.utcfromtimestamp(value / 1000.)`: interpret an epoch-millisecond
number as an absolute timestamp; a non-numeric operand is Python's `TypeError`. -/
def msToDatetime : EValue → Except String EValue
  | .vint n => .ok (.vdatetime n)
  | _ => .error "TypeError: unsupported operand type for /"

/-- `.date()`: truncate a timestamp to its UTC calendar day. -/
def EValue.dateOf : EValue → Except String EValue
  | .vdatetime ms => .ok (.vdate (Int.fdiv ms 86400000))
  | _ => .error "AttributeError: date"

/-- Python truthiness of an optional string (`if interval:`, `if name:`). -/
def strTruthy : Option String → Bool
  | none => false
  | some s => !s.isEmpty

/-- `dict[k]` on an association list: `KeyError` when the key is absent. -/
def lookupE {α : Type} (k : String) (d : List (String × α)) : Except String α :=
  match d.find? (fun kv => kv.1 == k) with
  | some kv => .ok kv.2
  | none => .error ("KeyError: " ++ k)

/-- Modelled from the spec: the Interval Codec (`amcat4/date_mappings.py`, not
under `src/`) maps a recognized interval name to a runtime-computed field name,
a post-processing decode function, and a `runtime_mappings()` fragment
(`resolve(interval_name) -> Option \x7bruntime_expression, encode, decode\x7d`). -/
structure IntervalCodec where
  fieldname : String → String
  postprocess : EValue → EValue
  mapping : String → RuntimeMappings

/-- `interval_mapping` applied to an axis's optional interval: the codec
registry `im` is a parameter because `date_mappings.py` is not under `src/`;
a `None` interval resolves to no codec. -/
def interval_mapping (im : String → Option IntervalCodec) : Option String → Option IntervalCodec
  | none => none
  | some s => im s

/-- An (unbound) aggregation axis: field, optional interval, display name. -/
structure Axis where
  field : String
  interval : Option String
  name : String
deriving DecidableEq, Repr

/-- `Axis.__init__`: the name defaults to `field_interval` or `field`. -/
def Axis.make (field : String) (interval : Option String) (name : Option String) : Axis :=
  { field := field, interval := interval,
    name :=
      if strTruthy name then name.getD ""
      else if strTruthy interval then field ++ "_" ++ interval.getD ""
      else field }

/-- An axis bound to an index, with its resolved field type. -/
structure BoundAxis where
  axis : Axis
  index : String
  ftype : String
deriving DecidableEq, Repr

/-- `BoundAxis.__init__`: the pseudo-field `_query` gets the sentinel type
`"_query"`; any other field is resolved through the field-type resolver. -/
def bindAxis (ftypes : String → String → String) (axis : Axis) (index : String) : BoundAxis :=
  { axis := axis, index := index,
    ftype := if axis.field = "_query" then "_query" else ftypes index axis.field }

def BoundAxis.field (b : BoundAxis) : String := b.axis.field

def BoundAxis.name (b : BoundAxis) : String := b.axis.name

def BoundAxis.interval (b : BoundAxis) : Option String := b.axis.interval

/-- A composite bucket-source fragment, the value of `\x7bname: ...\x7d` in
`BoundAxis.query()`. -/
inductive BucketSource where
  | terms (field : String)
  | histogram (field : String) (interval : String)
  | date_histogram (field : String) (calendar_interval : String)
deriving DecidableEq, Repr

/-- `BoundAxis.query()`: emit the bucket-source fragment keyed on the axis name. -/
def BoundAxis.query (im : String → Option IntervalCodec) (b : BoundAxis) :
    Except String (String × BucketSource) :=
  if b.ftype = "" then .error "Please set index before using axis"
  else if strTruthy b.interval then
    if b.ftype = "date" then
      match interval_mapping im b.interval with
      | some m => .ok (b.name, .terms (m.fieldname b.field))
      | none => .ok (b.name, .date_histogram b.field (b.interval.getD ""))
    else .ok (b.name, .histogram b.field (b.interval.getD ""))
  else .ok (b.name, .terms b.field)

/-- `self.interval in {"year", "month", "week", "day"}`. -/
def calendarUnit (o : Option String) : Bool :=
  [some "year", some "month", some "week", some "day"].contains o

/-- `BoundAxis.get_value(values)`: decode the raw bucket key for this axis. -/
def BoundAxis.get_value (im : String → Option IntervalCodec) (b : BoundAxis)
    (values : List (String × EValue)) : Except String EValue := do
  let value ← lookupE b.name values
  match interval_mapping im b.interval with
  | some m => pure (m.postprocess value)
  | none =>
    if b.ftype = "date" then do
      let v ← msToDatetime value
      if calendarUnit b.interval then v.dateOf else pure v
    else pure value

/-- `BoundAxis.runtime_mappings()`: the codec-supplied runtime fragment, if any. -/
def BoundAxis.runtime_mappings (im : String → Option IntervalCodec) (b : BoundAxis) :
    Option RuntimeMappings :=
  match interval_mapping im b.interval with
  | some m => some (m.mapping b.field)
  | none => none

/-- `dict.update` on association lists: existing keys are overridden in place,
new keys are appended in iteration order. -/
def dictUpdate (d : RuntimeMappings) (m : RuntimeMappings) : RuntimeMappings :=
  m.foldl (fun acc kv =>
    if acc.any (fun p => p.1 == kv.1)
    then acc.map (fun p => if p.1 == kv.1 then kv else p)
    else acc ++ [kv]) d

/-- `_combine_mappings`: merge the axes' runtime fragments, skipping `None`s. -/
def _combine_mappings (mappings : List (Option RuntimeMappings)) : RuntimeMappings :=
  mappings.foldl (fun result m =>
    match m with
    | some mm => dictUpdate result mm
    | none => result) []

/-- An (unbound) metric aggregation: field and aggregation function. -/
structure Aggregation where
  field : String
  function : String
  name : String
deriving DecidableEq, Repr

/-- `Aggregation.__init__`: `name = name or f"\x7bfunction\x7d_\x7bfield\x7d"`. -/
def Aggregation.make (field : String) (function : String) (name : Option String) : Aggregation :=
  { field := field, function := function,
    name := if strTruthy name then name.getD "" else function ++ "_" ++ field }

/-- An aggregation bound to an index (for field type information). -/
structure BoundAggregation where
  aggregation : Aggregation
  index : String
  ftype : String
deriving DecidableEq, Repr

/-- `BoundAggregation.__init__`: resolve the field type. -/
def bindAggregation (ftypes : String → String → String) (a : Aggregation) (index : String) :
    BoundAggregation :=
  { aggregation := a, index := index, ftype := ftypes index a.field }

def BoundAggregation.name (b : BoundAggregation) : String := b.aggregation.name

def BoundAggregation.function (b : BoundAggregation) : String := b.aggregation.function

def BoundAggregation.field (b : BoundAggregation) : String := b.aggregation.field

/-- `BoundAggregation.dsl_item()`: `(name, \x7bfunction: \x7bfield: field\x7d\x7d)`. -/
def BoundAggregation.dsl_item (b : BoundAggregation) : String × (String × String) :=
  (b.name, (b.function, b.field))

/-- A metric sub-result inside a bucket: the dict `\x7b'value': ...\x7d`. -/
structure MetricResult where
  value : EValue
deriving DecidableEq, Repr

/-- `BoundAggregation.get_value(bucket)`: read the named metric's scalar value;
a truthy value of a date-typed field is decoded from epoch milliseconds. -/
def BoundAggregation.get_value (b : BoundAggregation)
    (bucket : List (String × MetricResult)) : Except String EValue := do
  let mr ← lookupE b.name bucket
  let result := mr.value
  if result.truthy && (b.ftype == "date") then msToDatetime result
  else pure result

/-- `aggregation_dsl`: the aggregation DSL dict for a list of aggregations. -/
def aggregation_dsl (aggregations : List BoundAggregation) : List (String × (String × String)) :=
  aggregations.map BoundAggregation.dsl_item

/-- The final result object: bound axes, bound aggregations, row tuples, and
the name of the count column. -/
structure AggregateResult where
  axes : List BoundAxis
  aggregations : List BoundAggregation
  data : List (List EValue)
  count_column : String
deriving DecidableEq, Repr

/-- `AggregateResult.as_dicts()`: rows as name-keyed mappings. -/
def AggregateResult.as_dicts (r : AggregateResult) : List (List (String × EValue)) :=
  let keys := r.axes.map BoundAxis.name ++ [r.count_column] ++
    (if r.aggregations.isEmpty then [] else r.aggregations.map BoundAggregation.name)
  r.data.map (fun row => keys.zip row)

/-- Modelled from the spec: a filter is a mapping from field name to an
exact-value constraint or a range constraint with inclusive/exclusive bounds. -/
inductive FilterSpec where
  | value (v : String)
  | range (bounds : List (String × String))
deriving DecidableEq, Repr

abbrev Filters := List (String × FilterSpec)

/-- The query clause sent to the backend: either the explicit `match_all`
fallback of `_bare_aggregate`, or a clause built from queries and filters. -/
inductive QueryBody where
  | match_all
  | built (query_strings : List String) (filters : Filters)
deriving DecidableEq, Repr

/-- Modelled from the spec: `build_body` (`amcat4/query.py`'s current version is
not under `src/`) assembles the backend query/filter clause from the supplied
query strings and filters.  Its result is a body dict carrying a `query` key. -/
def build_body (queries : List String) (filters : Filters) : QueryBody :=
  .built queries filters

/-- Subscripting the body dict with `query` (`query['query']`): the result of
`build_body` carries that key — we identify the clause under it with the body
carrying it, as elsewhere in this embedding — but the bare
`\x7b"match_all": \x7b\x7d\x7d` fallback literal of `_bare_aggregate` has no
`query` key, so subscripting it raises `KeyError`. -/
def QueryBody.getQuery : QueryBody → Except String QueryBody
  | .match_all => .error "KeyError: query"
  | .built qs fs => .ok (.built qs fs)

/-- A composite continuation cursor (`after_key`), a dict axis name → value. -/
abbrev AfterKey := List (String × EValue)

/-- One composite bucket: `\x7bkey: \x7baxis: value\x7d, doc_count: n, <metrics>\x7d`. -/
structure Bucket where
  key : List (String × EValue)
  doc_count : Int
  metrics : List (String × MetricResult)
deriving DecidableEq, Repr

/-- One page of a composite aggregation response: its buckets, the optional
continuation cursor, and any reported shard failures (`_shards.failures`). -/
structure Page where
  buckets : List Bucket
  after_key : Option AfterKey
  failures : List String
deriving DecidableEq, Repr

/-- Python truthiness of the `after_key` continuation cursor. -/
def afterTruthy : Option AfterKey → Bool
  | none => false
  | some k => !k.isEmpty

/-- One call issued to the Elasticsearch backend. -/
inductive Call where
  | search_metrics (index : String) (query : QueryBody) (aggs : List (String × (String × String)))
  | count (index : String) (body : QueryBody)
  | search_composite (index : String) (sources : List (String × BucketSource))
      (query : Option QueryBody) (aggs : Option (List (String × (String × String))))
      (runtime : RuntimeMappings) (after : Option AfterKey)
deriving DecidableEq, Repr

/-- The backend oracles this core consumes.  `composite` yields the stream of
pages the backend will return, in order, for a composite aggregation request. -/
structure Backend where
  metric_search : String → QueryBody → List (String × (String × String)) →
    List (String × MetricResult)
  count : String → QueryBody → Int
  composite : String → List (String × BucketSource) → List (String × String) → Filters →
    Option (List (String × (String × String))) → RuntimeMappings → List Page

/-- The composite search request of `_elastic_aggregate`: the query clause is
present only when filters or queries are, the metric block only when
aggregations are, and `after` carries the continuation cursor. -/
def compositeRequest (index : String) (sources : List (String × BucketSource))
    (queries : List (String × String)) (filters : Filters)
    (aggregations : List BoundAggregation) (runtime : RuntimeMappings)
    (after : Option AfterKey) : Call :=
  Call.search_composite index sources
    (if filters.isEmpty && queries.isEmpty then none
     else some (build_body (queries.map Prod.snd) filters))
    (if aggregations.isEmpty then none else some (aggregation_dsl aggregations))
    runtime after

/-- `_bare_aggregate`: aggregate without sources/group_by; one zero-hit metric
search (over `query['query']`) plus one count call (over the whole body),
returning `(doc_count, metric results)`.  When queries and filters are both
empty the body is the bare match-all fallback dict, whose `query` subscript
raises `KeyError` before any backend call is made. -/
def _bare_aggregate (be : Backend) (index : String) (queries : List (String × String))
    (filters : Filters) (aggregations : List BoundAggregation) :
    List Call × Except String (Int × List (String × MetricResult)) :=
  let query := if !filters.isEmpty || !queries.isEmpty
    then build_body (queries.map Prod.snd) filters else QueryBody.match_all
  match query.getQuery with
  | .error e => ([], .error e)
  | .ok clause =>
    let aresult := be.metric_search index clause (aggregation_dsl aggregations)
    let cresult := be.count index query
    ([Call.search_metrics index clause (aggregation_dsl aggregations),
      Call.count index query],
     .ok (cresult, aresult))

/-- `_elastic_aggregate`: recursively drain all pages of a composite query,
re-issuing the request with the previous page's `after_key`, aborting on
shard failures.  The page stream the backend will return is explicit; an
exhausted stream is a modelling artifact that cannot occur in claims. -/
def _elastic_aggregate (index : String) (sources : List (String × BucketSource))
    (queries : List (String × String)) (filters : Filters)
    (aggregations : List BoundAggregation) (runtime : RuntimeMappings)
    (after_key : Option AfterKey) : List Page → List Call × Except String (List Bucket)
  | [] => ([compositeRequest index sources queries filters aggregations runtime after_key],
           .error "model artifact: backend page stream exhausted")
  | p :: rest =>
    let call := compositeRequest index sources queries filters aggregations runtime after_key
    if !p.failures.isEmpty then
      ([call], .error ("Error on running aggregate search: " ++ String.intercalate "; " p.failures))
    else if afterTruthy p.after_key then
      let r := _elastic_aggregate index sources queries filters aggregations runtime
        p.after_key rest
      (call :: r.1, r.2.map (fun bs => p.buckets ++ bs))
    else ([call], .ok p.buckets)

/-- Sequential effectful map over `Except`, mirroring a Python generator
expression: the first raised exception aborts the whole traversal. -/
def mapME {α β : Type} (f : α → Except String β) : List α → Except String (List β)
  | [] => .ok []
  | a :: l => do
    let b ← f a
    let bs ← mapME f l
    pure (b :: bs)

/-- Decode one composite bucket into a result row: axis values, doc count,
then metric values when aggregations are present. -/
def rowOfBucket (im : String → Option IntervalCodec) (axes : List BoundAxis)
    (aggregations : List BoundAggregation) (b : Bucket) : Except String (List EValue) := do
  let vals ← mapME (fun ax => BoundAxis.get_value im ax b.key) axes
  let row := vals ++ [EValue.vint b.doc_count]
  if aggregations.isEmpty then pure row
  else do
    let avs ← mapME (fun a => BoundAggregation.get_value a b.metrics) aggregations
    pure (row ++ avs)

/-- Concatenate per-query sub-results of the `_query` fan-out in order,
accumulating their backend calls; the first failure aborts the stream (no
later sub-aggregation is run). -/
def seqResults : List (List Call × Except String (List (List EValue))) →
    List Call × Except String (List (List EValue))
  | [] => ([], .ok [])
  | (cs, .error e) :: _ => (cs, .error e)
  | (cs, .ok rows) :: rest =>
    let r := seqResults rest
    (cs ++ r.1, r.2.map (fun more => rows ++ more))

/-- The body of `_aggregate_results`, with an explicit fuel bounding the
`_query`-axis recursion depth.  `_aggregate_results` supplies `axes.length`,
which always suffices because each recursive step removes one axis; the
fuel-exhaustion branch is unreachable from it. -/
def aggregate_loop (im : String → Option IntervalCodec) (be : Backend) (index : String) :
    Nat → List BoundAxis → List (String × String) → Filters → List BoundAggregation →
    List Call × Except String (List (List EValue))
  | fuel, axes, queries, filters, aggregations =>
    if axes.isEmpty then
      if !aggregations.isEmpty then
        let r := _bare_aggregate be index queries filters aggregations
        (r.1, Except.bind r.2 (fun cr =>
          (mapME (fun a => BoundAggregation.get_value a cr.2) aggregations).map
            (fun vs => [EValue.vint cr.1 :: vs])))
      else
        let body := build_body (queries.map Prod.snd) filters
        ([Call.count index body], .ok [[EValue.vint (be.count index body)]])
    else if axes.any (fun ax => ax.field == "_query") then
      match fuel with
      | 0 => ([], .error "model artifact: fuel exhausted")
      | fuel' + 1 =>
        let i := axes.findIdx (fun ax => ax.field == "_query")
        let axes2 := axes.take i ++ axes.drop (i + 1)
        seqResults (queries.map (fun lq =>
          let r := aggregate_loop im be index fuel' axes2 [lq] filters aggregations
          (r.1, r.2.map (List.map (fun t => t.take i ++ EValue.vstr lq.1 :: t.drop i)))))
    else
      match mapME (fun ax => BoundAxis.query im ax) axes with
      | .error e => ([], .error e)
      | .ok sources =>
        let runtime := _combine_mappings (axes.map (fun ax => BoundAxis.runtime_mappings im ax))
        let pages := be.composite index sources queries filters
          (if aggregations.isEmpty then none else some (aggregation_dsl aggregations)) runtime
        let r := _elastic_aggregate index sources queries filters aggregations runtime none pages
        (r.1, Except.bind r.2 (fun buckets => mapME (rowOfBucket im axes aggregations) buckets))

/-- `_aggregate_results`: dispatch between the axis-less scalar path, the
`_query` fan-out, and the composite pagination path. -/
def _aggregate_results (im : String → Option IntervalCodec) (be : Backend) (index : String)
    (axes : List BoundAxis) (queries : List (String × String)) (filters : Filters)
    (aggregations : List BoundAggregation) : List Call × Except String (List (List EValue)) :=
  aggregate_loop im be index axes.length axes queries filters aggregations

/-- The `queries` argument of `query_aggregate`: absent, a label → query
mapping, or a bare sequence of query strings. -/
inductive QueriesInput where
  | q_none
  | mapping (m : List (String × String))
  | seq (qs : List String)
deriving DecidableEq, Repr

/-- Modelled from the spec: `_normalize_queries` (`amcat4/query.py`'s current
version is not under `src/`) passes a label → query mapping through and
auto-labels a bare sequence of query strings. -/
def _normalize_queries : QueriesInput → List (String × String)
  | .q_none => []
  | .mapping m => m
  | .seq qs => qs.map (fun q => (q, q))

/-- The validation guard of `query_aggregate`, verbatim from the source:
`if axes and len([x.field == "_query" for x in axes[1:]]) > 1`. -/
def validation_rejects (axes : List Axis) : Bool :=
  !axes.isEmpty && decide (((axes.drop 1).map (fun x => x.field == "_query")).length > 1)

/-- `query_aggregate`: validate, bind axes and aggregations to the index,
run `_aggregate_results`, and package the rows. -/
def query_aggregate (im : String → Option IntervalCodec) (ftypes : String → String → String)
    (be : Backend) (index : String) (axes : List Axis) (aggregations : List Aggregation)
    (queries : QueriesInput) (filters : Filters) :
    List Call × Except String AggregateResult :=
  if validation_rejects axes then
    ([], .error "Only one aggregation axis may be by query")
  else
    let baxes := axes.map (fun a => bindAxis ftypes a index)
    let baggs := aggregations.map (fun a => bindAggregation ftypes a index)
    let qs := _normalize_queries queries
    let r := _aggregate_results im be index baxes qs filters baggs
    (r.1, r.2.map (fun data => AggregateResult.mk baxes baggs data "n"))

/-- Whether an `Except` is an error (the caller received no value). -/
def isError {α : Type} : Except String α → Bool
  | .error _ => true
  | .ok _ => false

/-- Whether a page at a stream position exists, succeeded, and carries a
truthy continuation cursor (so pagination proceeds past it). -/
def pageOkTruthy : Option Page → Bool
  | some q => q.failures.isEmpty && afterTruthy q.after_key
  | none => false

/-- A well-formed complete page stream: at least one page, no shard failures,
every non-final page carries a truthy continuation cursor, the final page
carries none. -/
def chainOk : List Page → Bool
  | [] => false
  | [p] => p.failures.isEmpty && p.after_key.isNone
  | p :: rest => p.failures.isEmpty && afterTruthy p.after_key && chainOk rest

/-- The page stream `_aggregate_results` drains on its composite path, as a
function of the unbound request. -/
def compositePages (im : String → Option IntervalCodec) (ftypes : String → String → String)
    (be : Backend) (index : String) (axes : List Axis) (aggregations : List Aggregation)
    (queries : QueriesInput) (filters : Filters) (sources : List (String × BucketSource)) :
    List Page :=
  be.composite index sources (_normalize_queries queries) filters
    (if (aggregations.map (fun a => bindAggregation ftypes a index)).isEmpty then none
     else some (aggregation_dsl (aggregations.map (fun a => bindAggregation ftypes a index))))
    (_combine_mappings ((axes.map (fun a => bindAxis ftypes a index)).map
      (fun ax => BoundAxis.runtime_mappings im ax)))

/-! ### Concrete fixtures used by the witness theorems -/

/-- An empty interval-codec registry: no interval name is recognized. -/
def im0 : String → Option IntervalCodec := fun _ => none

/-- A codec for the custom interval `dayofweek`. -/
def codecD : IntervalCodec :=
  { fieldname := fun f => f ++ "_dayofweek",
    postprocess := fun v => v,
    mapping := fun f => [(f ++ "_dayofweek", "runtime expression")] }

/-- A codec registry recognizing only `dayofweek`. -/
def imD : String → Option IntervalCodec := fun s =>
  if s = "dayofweek" then some codecD else none

/-- A field-type resolver: the field named `date` is a date, all else `long`. -/
def ft0 : String → String → String := fun _ f => if f = "date" then "date" else "long"

/-- A backend fixture: every metric is 7, every count is 42, and composite
aggregations return two pages over field `f`. -/
def be0 : Backend :=
  { metric_search := fun _ _ aggs => aggs.map (fun a => (a.1, { value := EValue.vint 7 })),
    count := fun _ _ => 42,
    composite := fun _ _ _ _ _ _ =>
      [{ buckets := [{ key := [("f", EValue.vint 5)], doc_count := 3, metrics := [] }],
         after_key := some [("f", EValue.vint 5)], failures := [] },
       { buckets := [{ key := [("f", EValue.vint 9)], doc_count := 2, metrics := [] }],
         after_key := none, failures := [] }] }

/-- A backend fixture whose composite page stream fails on its second page. -/
def beFail : Backend :=
  { metric_search := fun _ _ _ => [],
    count := fun _ _ => 0,
    composite := fun _ _ _ _ _ _ =>
      [{ buckets := [{ key := [("f", EValue.vint 5)], doc_count := 3, metrics := [] }],
         after_key := some [("f", EValue.vint 5)], failures := [] },
       { buckets := [], after_key := none, failures := ["shard 0 failed"] }] }

/-- An axis grouping by the `_query` pseudo-field. -/
def qax : Axis := Axis.make "_query" none none

/-- An axis grouping by the plain field `f`. -/
def axf : Axis := Axis.make "f" none none

/-- An `avg` aggregation over field `f`. -/
def aggAvg : Aggregation := Aggregation.make "f" "avg" none

/-- A `max` aggregation over the date-typed field, bound to an index. -/
def agg9 : BoundAggregation := bindAggregation ft0 (Aggregation.make "date" "max" none) "i"

/-- A metric result carrying the non-null epoch value 0 for `agg9`. -/
def bucket9 : List (String × MetricResult) := [("max_date", { value := EValue.vint 0 })]

/-- A metric result carrying the epoch value 5 for `agg9`. -/
def bucket9b : List (String × MetricResult) := [("max_date", { value := EValue.vint 5 })]

/-- The result `query_aggregate` produces on `be0` for one axis over `f`. -/
def resC5 : AggregateResult :=
  { axes := [bindAxis ft0 axf "i"], aggregations := [],
    data := [[EValue.vint 5, EValue.vint 3], [EValue.vint 9, EValue.vint 2]],
    count_column := "n" }

/-- A date axis with interval `day`, bound to an index. -/
def axDay : BoundAxis := bindAxis ft0 (Axis.make "date" (some "day") none) "i"

/-- A date axis with interval `hour`, bound to an index. -/
def axHour : BoundAxis := bindAxis ft0 (Axis.make "date" (some "hour") none) "i"

/-! ### Helper lemmas -/

theorem bindAxis_field (ftypes : String → String → String) (a : Axis) (index : String) :
    (bindAxis ftypes a index).field = a.field := rfl

theorem validation_rejects_iff (axes : List Axis) :
    validation_rejects axes = true ↔ 3 ≤ axes.length := by
  cases axes with
  | nil => simp [validation_rejects]
  | cons a t => simp [validation_rejects]; omega

theorem exceptMap_map {α β γ : Type} (e : Except String α) (f : α → β) (g : β → γ) :
    (e.map f).map g = e.map (fun x => g (f x)) := by cases e <;> rfl

theorem exceptMap_id {α : Type} (e : Except String α) : e.map (fun x => x) = e := by
  cases e <;> rfl

theorem isError_map {α β : Type} (e : Except String α) (f : α → β) :
    isError (e.map f) = isError e := by cases e <;> rfl

theorem isError_bind_of {α β : Type} (e : Except String α) (f : α → Except String β)
    (h : isError e = true) : isError (Except.bind e f) = true := by
  cases e with
  | error _ => rfl
  | ok _ => simp [isError] at h

theorem mapME_ok_length {α β : Type} (f : α → Except String β) :
    ∀ {l : List α} {ys : List β}, mapME f l = .ok ys → ys.length = l.length := by
  intro l
  induction l with
  | nil => intro ys h; simp only [mapME] at h; cases h; rfl
  | cons a t ih =>
    intro ys h
    simp only [mapME, bind, Except.bind] at h
    cases hfa : f a with
    | error e => rw [hfa] at h; cases h
    | ok b =>
      rw [hfa] at h
      cases hmt : mapME f t with
      | error e => rw [hmt] at h; cases h
      | ok bs =>
        rw [hmt] at h
        simp only [pure, Except.pure, Except.ok.injEq] at h
        subst h
        simp [ih hmt]

theorem mapME_ok_mem {α β : Type} (f : α → Except String β) :
    ∀ {l : List α} {ys : List β}, mapME f l = .ok ys → ∀ y ∈ ys, ∃ x ∈ l, f x = .ok y := by
  intro l
  induction l with
  | nil =>
    intro ys h y hy
    simp only [mapME] at h; cases h; simp at hy
  | cons a t ih =>
    intro ys h y hy
    simp only [mapME, bind, Except.bind] at h
    cases hfa : f a with
    | error e => rw [hfa] at h; cases h
    | ok b =>
      rw [hfa] at h
      cases hmt : mapME f t with
      | error e => rw [hmt] at h; cases h
      | ok bs =>
        rw [hmt] at h
        simp only [pure, Except.pure, Except.ok.injEq] at h
        subst h
        rcases List.mem_cons.mp hy with hy | hy
        · exact ⟨a, List.mem_cons_self a t, hy ▸ hfa⟩
        · obtain ⟨x, hx, hfx⟩ := ih hmt y hy
          exact ⟨x, List.mem_cons_of_mem a hx, hfx⟩

theorem mapME_map {α β γ : Type} (f : β → Except String γ) (g : α → β) :
    ∀ (l : List α), mapME f (l.map g) = mapME (fun x => f (g x)) l := by
  intro l
  induction l with
  | nil => rfl
  | cons a t ih => simp only [List.map_cons, mapME, ih]

theorem findIdx_eq_of_first {α : Type} (p : α → Bool) :
    ∀ (l : List α) (i : Nat) (hi : i < l.length),
      p (l.get ⟨i, hi⟩) = true →
      (∀ j (hj : j < l.length), j < i → p (l.get ⟨j, hj⟩) = false) →
      l.findIdx p = i := by
  intro l
  induction l with
  | nil => intro i hi; simp at hi
  | cons a t ih =>
    intro i hi hp hbefore
    cases i with
    | zero =>
      simp only [List.get] at hp
      simp [List.findIdx_cons, hp]
    | succ k =>
      have ha : p a = false := hbefore 0 (by simp) (by omega)
      simp only [List.get] at hp
      have := ih k (by simpa using hi) hp
        (fun j hj hlt => by
          have := hbefore (j + 1) (by simpa using hj) (by omega)
          simpa [List.get] using this)
      simp [List.findIdx_cons, ha, this]

theorem mapME_congr {α β : Type} (f g : α → Except String β) :
    ∀ (l : List α), (∀ x ∈ l, f x = g x) → mapME f l = mapME g l := by
  intro l
  induction l with
  | nil => intro _; rfl
  | cons a t ih =>
    intro h
    simp only [mapME, h a (List.mem_cons_self a t),
      ih (fun x hx => h x (List.mem_cons_of_mem a hx))]

theorem seqResults_snd :
    ∀ (l : List (List Call × Except String (List (List EValue)))),
    (seqResults l).2 = (mapME (fun x => x.2) l).map List.flatten := by
  intro l
  induction l with
  | nil => rfl
  | cons x rest ih =>
    obtain ⟨cs, r⟩ := x
    cases r with
    | error e => rfl
    | ok rows =>
      cases hm : mapME (fun x => x.2) rest with
      | error e =>
        simp only [seqResults, ih, hm, mapME, bind, Except.bind, Except.map]
      | ok bs =>
        simp only [seqResults, ih, hm, mapME, bind, Except.bind, Except.map, pure,
          Except.pure, List.flatten]

theorem seqResults_ok_mem :
    ∀ {l : List (List Call × Except String (List (List EValue)))}
      {rows : List (List EValue)},
    (seqResults l).2 = .ok rows → ∀ r ∈ rows, ∃ x ∈ l, ∃ rs, x.2 = .ok rs ∧ r ∈ rs := by
  intro l
  induction l with
  | nil =>
    intro rows h r hr
    simp only [seqResults] at h
    cases h
    simp at hr
  | cons x rest ih =>
    intro rows h r hr
    obtain ⟨cs, rx⟩ := x
    cases rx with
    | error e => simp only [seqResults] at h; cases h
    | ok rows0 =>
      simp only [seqResults] at h
      cases hrest : (seqResults rest).2 with
      | error e => rw [hrest] at h; simp only [Except.map] at h; cases h
      | ok more =>
        rw [hrest] at h
        simp only [Except.map, Except.ok.injEq] at h
        subst h
        rcases List.mem_append.mp hr with hr0 | hrm
        · exact ⟨(cs, .ok rows0), List.mem_cons_self _ _, rows0, rfl, hr0⟩
        · obtain ⟨y, hy, rs, hrs, hrrs⟩ := ih hrest r hrm
          exact ⟨y, List.mem_cons_of_mem _ hy, rs, hrs, hrrs⟩

theorem rowOfBucket_length (im : String → Option IntervalCodec) (axes : List BoundAxis)
    (aggregations : List BoundAggregation) (b : Bucket) (r : List EValue)
    (h : rowOfBucket im axes aggregations b = .ok r) :
    r.length = axes.length + 1 + aggregations.length := by
  unfold rowOfBucket at h
  simp only [bind, Except.bind] at h
  cases hv : mapME (fun ax => BoundAxis.get_value im ax b.key) axes with
  | error e => rw [hv] at h; cases h
  | ok vals =>
    rw [hv] at h
    dsimp only at h
    have hvl : vals.length = axes.length := mapME_ok_length _ hv
    by_cases hae : aggregations.isEmpty
    · rw [if_pos hae] at h
      simp only [pure, Except.pure, Except.ok.injEq] at h
      subst h
      have : aggregations = [] := List.isEmpty_iff.mp hae
      simp [this, hvl]
    · rw [if_neg hae] at h
      cases ha : mapME (fun a => BoundAggregation.get_value a b.metrics) aggregations with
      | error e => rw [ha] at h; cases h
      | ok avs =>
        rw [ha] at h
        simp only [pure, Except.pure, Except.ok.injEq] at h
        subst h
        have hal : avs.length = aggregations.length := mapME_ok_length _ ha
        simp [hvl, hal]
        omega

theorem aggregate_loop_width_empty (fuel : Nat) (im : String → Option IntervalCodec)
    (be : Backend) (index : String) (queries : List (String × String)) (filters : Filters)
    (aggregations : List BoundAggregation) (rows : List (List EValue))
    (h : (aggregate_loop im be index fuel [] queries filters aggregations).2 = .ok rows) :
    ∀ r ∈ rows, r.length = 1 + aggregations.length := by
  rw [aggregate_loop.eq_def] at h
  simp only [List.isEmpty_nil, if_true] at h
  by_cases hagg : aggregations.isEmpty
  · rw [hagg] at h
    simp only [Bool.not_true, Bool.false_eq_true, if_false, Except.ok.injEq] at h
    subst h
    intro r hr
    have : aggregations = [] := List.isEmpty_iff.mp hagg
    simp only [List.mem_singleton] at hr
    subst hr
    simp [this]
  · have hagg' : aggregations.isEmpty = false := by
      cases hb : aggregations.isEmpty
      · rfl
      · exact absurd hb hagg
    rw [hagg'] at h
    simp only [Bool.not_false, if_true] at h
    cases hbare : (_bare_aggregate be index queries filters aggregations).2 with
    | error e => rw [hbare] at h; cases h
    | ok cr =>
      rw [hbare] at h
      simp only [Except.bind] at h
      cases hm : mapME (fun a => BoundAggregation.get_value a cr.2) aggregations with
      | error e => rw [hm] at h; cases h
      | ok vs =>
        rw [hm] at h
        simp only [Except.map, Except.ok.injEq] at h
        subst h
        intro r hr
        simp only [List.mem_singleton] at hr
        subst hr
        simp [mapME_ok_length _ hm]
        omega

theorem aggregate_loop_width :
    ∀ (fuel : Nat) (axes : List BoundAxis), axes.length ≤ fuel →
    ∀ (im : String → Option IntervalCodec) (be : Backend) (index : String)
      (queries : List (String × String)) (filters : Filters)
      (aggregations : List BoundAggregation) (rows : List (List EValue)),
    (aggregate_loop im be index fuel axes queries filters aggregations).2 = .ok rows →
    ∀ r ∈ rows, r.length = axes.length + 1 + aggregations.length := by
  intro fuel
  induction fuel with
  | zero =>
    intro axes hlen im be index queries filters aggregations rows h r hr
    have haxes : axes = [] := List.length_eq_zero.mp (by omega)
    subst haxes
    have := aggregate_loop_width_empty 0 im be index queries filters aggregations rows h r hr
    simpa using this
  | succ n ih =>
    intro axes hlen im be index queries filters aggregations rows h r hr
    by_cases he : axes.isEmpty = true
    · have haxes : axes = [] := List.isEmpty_iff.mp he
      subst haxes
      have := aggregate_loop_width_empty (n + 1) im be index queries filters aggregations
        rows h r hr
      simpa using this
    · have he' : axes.isEmpty = false := by
        cases hb : axes.isEmpty
        · rfl
        · exact absurd hb he
      rw [aggregate_loop.eq_def] at h
      simp only [he', Bool.false_eq_true, if_false] at h
      by_cases hq : axes.any (fun ax => ax.field == "_query") = true
      · simp only [hq, if_true] at h
        obtain ⟨x, hx, rs, hrs, hrrs⟩ := seqResults_ok_mem h r hr
        obtain ⟨lq, _, rfl⟩ := List.mem_map.mp hx
        dsimp only at hrs
        cases hinner : (aggregate_loop im be index n
            (axes.take (axes.findIdx fun ax => ax.field == "_query") ++
             axes.drop ((axes.findIdx fun ax => ax.field == "_query") + 1))
            [lq] filters aggregations).2 with
        | error e => rw [hinner] at hrs; simp only [Except.map] at hrs; cases hrs
        | ok rs0 =>
          rw [hinner] at hrs
          simp only [Except.map, Except.ok.injEq] at hrs
          subst hrs
          obtain ⟨t, ht, rfl⟩ := List.mem_map.mp hrrs
          have hlt : (axes.findIdx fun ax => ax.field == "_query") < axes.length :=
            List.findIdx_lt_length_of_exists (by
              obtain ⟨ax, hax, hpax⟩ := List.any_eq_true.mp hq
              exact ⟨ax, hax, hpax⟩)
          have hlen2 : (axes.take (axes.findIdx fun ax => ax.field == "_query") ++
              axes.drop ((axes.findIdx fun ax => ax.field == "_query") + 1)).length =
              axes.length - 1 := by
            simp only [List.length_append, List.length_take, List.length_drop]
            omega
          have hwt := ih _ (by omega) im be index [lq] filters aggregations rs0 hinner t ht
          rw [hlen2] at hwt
          simp only [List.length_append, List.length_take, List.length_drop,
            List.length_cons]
          omega
      · have hq' : axes.any (fun ax => ax.field == "_query") = false := by
          cases hb : axes.any (fun ax => ax.field == "_query")
          · rfl
          · exact absurd hb hq
        simp only [hq', Bool.false_eq_true, if_false] at h
        cases hsrc : mapME (fun ax => BoundAxis.query im ax) axes with
        | error e => rw [hsrc] at h; cases h
        | ok sources =>
          rw [hsrc] at h
          dsimp only at h
          cases helast : (_elastic_aggregate index sources queries filters aggregations
              (_combine_mappings (axes.map fun ax => BoundAxis.runtime_mappings im ax)) none
              (be.composite index sources queries filters
                (if aggregations.isEmpty = true then none
                 else some (aggregation_dsl aggregations))
                (_combine_mappings (axes.map fun ax =>
                  BoundAxis.runtime_mappings im ax)))).2 with
          | error e => rw [helast] at h; cases h
          | ok buckets =>
            rw [helast] at h
            simp only [Except.bind] at h
            obtain ⟨b, _, hb⟩ := mapME_ok_mem _ h r hr
            exact rowOfBucket_length im axes aggregations b r hb

/-! ### Claim theorems -/

/-- Claim C10: `query_aggregate`'s validation guard raises its `ValueError`
before any backend call exactly when the axes list has three or more
elements, regardless of any axis's field; an axes list of at most two
elements is never rejected, even if both axes have field `_query`. -/
theorem claim_C10 (im : String → Option IntervalCodec) (ftypes : String → String → String)
    (be : Backend) (index : String) (axes : List Axis) (aggregations : List Aggregation)
    (queries : QueriesInput) (filters : Filters) :
    (validation_rejects axes = true ↔ 3 ≤ axes.length) ∧
    (3 ≤ axes.length →
      query_aggregate im ftypes be index axes aggregations queries filters =
        ([], .error "Only one aggregation axis may be by query")) := by
  refine ⟨validation_rejects_iff axes, fun h => ?_⟩
  unfold query_aggregate
  rw [if_pos ((validation_rejects_iff axes).mpr h)]

/-- Witness for C10: three axes (none of them `_query`) are rejected with an
empty backend-call trace. -/
theorem claim_C10_witness :
    validation_rejects [axf, axf, axf] = true ∧
    query_aggregate im0 ft0 be0 "i" [axf, axf, axf] [] .q_none [] =
      ([], .error "Only one aggregation axis may be by query") :=
  ⟨(claim_C10 im0 ft0 be0 "i" [axf, axf, axf] [] .q_none []).1.mpr (by decide),
   (claim_C10 im0 ft0 be0 "i" [axf, axf, axf] [] .q_none []).2 (by decide)⟩

/-- Claim C1, evaluated at the failing input: an axes list of two `_query`
axes passes the validation guard (the guard measures `len(axes[1:])`, not how
many axes are by query), and `query_aggregate` then proceeds to issue a
backend call and return doubly-labelled rows instead of raising. -/
theorem claim_C1_eval :
    validation_rejects [qax, qax] = false ∧
    (query_aggregate im0 ft0 be0 "i" [qax, qax] [] (.mapping [("a", "x")]) []).1 =
      [Call.count "i" (QueryBody.built ["x"] [])] ∧
    ((query_aggregate im0 ft0 be0 "i" [qax, qax] [] (.mapping [("a", "x")]) []).2).map
        AggregateResult.data =
      .ok [[EValue.vstr "a", EValue.vstr "a", EValue.vint 42]] := by
  decide

/-- Claim C6: on a date axis whose interval the codec does not recognize,
`get_value` decodes the raw bucket key as epoch milliseconds; the calendar
units year/month/week/day truncate to a date with no time component, any
other interval keeps full timestamp precision. -/
theorem claim_C6 (im : String → Option IntervalCodec) (b : BoundAxis)
    (values : List (String × EValue)) (n : Int)
    (hft : b.ftype = "date")
    (hcodec : interval_mapping im b.interval = none)
    (hval : lookupE b.name values = .ok (EValue.vint n)) :
    (b.interval ∈ [some "year", some "month", some "week", some "day"] →
      BoundAxis.get_value im b values = .ok (EValue.vdate (Int.fdiv n 86400000))) ∧
    (b.interval ∉ [some "year", some "month", some "week", some "day"] →
      BoundAxis.get_value im b values = .ok (EValue.vdatetime n)) := by
  have hgv : BoundAxis.get_value im b values =
      (if calendarUnit b.interval then EValue.dateOf (EValue.vdatetime n)
       else pure (EValue.vdatetime n)) := by
    simp only [BoundAxis.get_value, hval, hcodec, hft, bind, Except.bind, msToDatetime]
    simp
  constructor
  · intro hmem
    have hc : calendarUnit b.interval = true := by simpa [calendarUnit] using hmem
    rw [hgv, if_pos hc]; rfl
  · intro hmem
    have hc : calendarUnit b.interval = false := by
      cases hcu : calendarUnit b.interval
      · rfl
      · exact absurd (by simpa [calendarUnit] using hcu) hmem
    rw [hgv, if_neg (by simp [hc])]; rfl

/-- Witness for C6: a raw key of 86400001 ms with interval `day` decodes to
calendar day 1 with no time component; with interval `hour` it keeps the full
timestamp. -/
theorem claim_C6_witness :
    BoundAxis.get_value im0 axDay [("date_day", EValue.vint 86400001)] =
      .ok (EValue.vdate 1) ∧
    BoundAxis.get_value im0 axHour [("date_hour", EValue.vint 86400001)] =
      .ok (EValue.vdatetime 86400001) :=
  ⟨(claim_C6 im0 axDay [("date_day", EValue.vint 86400001)] 86400001 rfl rfl (by decide)).1
      (by decide),
   (claim_C6 im0 axHour [("date_hour", EValue.vint 86400001)] 86400001 rfl rfl (by decide)).2
      (by decide)⟩

/-- Claim C7: `query()` on an axis with a resolved field type emits exactly one
bucket-source fragment keyed on the axis name: a term bucket without an
interval; a numeric histogram for an interval on a non-date field; a term
bucket over the codec's runtime field for a codec-recognized interval on a
date field; and a calendar date-histogram otherwise. -/
theorem claim_C7 (im : String → Option IntervalCodec) (b : BoundAxis) (hft : b.ftype ≠ "") :
    (b.interval = none → BoundAxis.query im b = .ok (b.name, BucketSource.terms b.field)) ∧
    (∀ iv, b.interval = some iv → iv ≠ "" → b.ftype ≠ "date" →
      BoundAxis.query im b = .ok (b.name, BucketSource.histogram b.field iv)) ∧
    (∀ iv m, b.interval = some iv → iv ≠ "" → b.ftype = "date" → im iv = some m →
      BoundAxis.query im b = .ok (b.name, BucketSource.terms (m.fieldname b.field))) ∧
    (∀ iv, b.interval = some iv → iv ≠ "" → b.ftype = "date" → im iv = none →
      BoundAxis.query im b = .ok (b.name, BucketSource.date_histogram b.field iv)) := by
  refine ⟨fun hint => ?_, fun iv hint hiv hdate => ?_, fun iv m hint hiv hdate hm => ?_,
    fun iv hint hiv hdate hm => ?_⟩
  · simp [BoundAxis.query, hft, hint, strTruthy]
  · have hiv' : iv.isEmpty = false :=
      Bool.eq_false_iff.mpr (fun h => hiv ((String.isEmpty_iff iv).mp h))
    simp [BoundAxis.query, hft, hint, strTruthy, hiv', hdate]
  · have hiv' : iv.isEmpty = false :=
      Bool.eq_false_iff.mpr (fun h => hiv ((String.isEmpty_iff iv).mp h))
    simp [BoundAxis.query, hft, hint, strTruthy, hiv', hdate, interval_mapping, hm]
  · have hiv' : iv.isEmpty = false :=
      Bool.eq_false_iff.mpr (fun h => hiv ((String.isEmpty_iff iv).mp h))
    simp [BoundAxis.query, hft, hint, strTruthy, hiv', hdate, interval_mapping, hm]

/-- Witness for C7: the four cases at concrete axes. -/
theorem claim_C7_witness :
    BoundAxis.query im0 (bindAxis ft0 axf "i") =
      .ok ("f", BucketSource.terms "f") ∧
    BoundAxis.query im0 (bindAxis ft0 (Axis.make "f" (some "10") none) "i") =
      .ok ("f_10", BucketSource.histogram "f" "10") ∧
    BoundAxis.query imD (bindAxis ft0 (Axis.make "date" (some "dayofweek") none) "i") =
      .ok ("date_dayofweek", BucketSource.terms "date_dayofweek") ∧
    BoundAxis.query imD (bindAxis ft0 (Axis.make "date" (some "day") none) "i") =
      .ok ("date_day", BucketSource.date_histogram "date" "day") :=
  ⟨(claim_C7 im0 (bindAxis ft0 axf "i") (by decide)).1 rfl,
   (claim_C7 im0 (bindAxis ft0 (Axis.make "f" (some "10") none) "i") (by decide)).2.1
     "10" rfl (by decide) (by decide),
   (claim_C7 imD (bindAxis ft0 (Axis.make "date" (some "dayofweek") none) "i")
     (by decide)).2.2.1 "dayofweek" codecD rfl (by decide) rfl (by simp [imD]),
   (claim_C7 imD (bindAxis ft0 (Axis.make "date" (some "day") none) "i")
     (by decide)).2.2.2 "day" rfl (by decide) rfl (by simp [imD])⟩

/-- Claim C9, counterexample: the non-null metric value 0 on a date-typed
aggregation is returned unchanged (Python truthiness, `if result and ...`),
not converted from epoch milliseconds as the claim states. -/
theorem claim_C9_counterexample :
    agg9.ftype = "date" ∧
    lookupE agg9.name bucket9 = .ok { value := EValue.vint 0 } ∧
    EValue.vint 0 ≠ EValue.vnull ∧
    BoundAggregation.get_value agg9 bucket9 = .ok (EValue.vint 0) ∧
    BoundAggregation.get_value agg9 bucket9 ≠ .ok (EValue.vdatetime 0) := by
  decide

/-- Claim C9 as amended: `get_value` reads the named metric's scalar value;
a truthy value (non-null and non-zero) of a date-typed field is converted
from epoch milliseconds to an absolute timestamp, any other truthy value is
returned unchanged, and a falsy value (null, or zero) is passed through with
no date conversion attempted. -/
theorem claim_C9_amended (b : BoundAggregation) (bucket : List (String × MetricResult))
    (v : EValue) (hv : lookupE b.name bucket = .ok { value := v }) :
    (v.truthy = true → b.ftype = "date" →
      BoundAggregation.get_value b bucket = msToDatetime v) ∧
    (v.truthy = true → b.ftype ≠ "date" →
      BoundAggregation.get_value b bucket = .ok v) ∧
    (v.truthy = false → BoundAggregation.get_value b bucket = .ok v) := by
  refine ⟨fun ht hd => ?_, fun ht hd => ?_, fun ht => ?_⟩
  · simp [BoundAggregation.get_value, hv, bind, Except.bind, ht, hd]
  · have : (b.ftype == "date") = false := by
      cases h : b.ftype == "date"
      · rfl
      · exact absurd (beq_iff_eq.mp h) hd
    simp [BoundAggregation.get_value, hv, bind, Except.bind, ht, this, pure, Except.pure]
  · simp [BoundAggregation.get_value, hv, bind, Except.bind, ht, pure, Except.pure]

/-- Witness for C9 (amended): the truthy epoch value 5 on a date-typed
aggregation is converted to a timestamp. -/
theorem claim_C9_witness :
    BoundAggregation.get_value agg9 bucket9b = msToDatetime (EValue.vint 5) :=
  (claim_C9_amended agg9 bucket9b (EValue.vint 5) (by decide)).1 (by decide) (by decide)

/-- Claim C3: over a complete page stream, `_elastic_aggregate` issues one
request per page — the first with the caller's cursor, every later one with
the previous page's `after_key` — terminates exactly at the page that carries
no cursor, and returns the in-order concatenation of all pages' buckets. -/
theorem claim_C3 (index : String) (sources : List (String × BucketSource))
    (queries : List (String × String)) (filters : Filters)
    (aggregations : List BoundAggregation) (runtime : RuntimeMappings)
    (pages : List Page) (a0 : Option AfterKey)
    (h : chainOk pages = true) :
    _elastic_aggregate index sources queries filters aggregations runtime a0 pages =
      ((a0 :: pages.dropLast.map Page.after_key).map
        (compositeRequest index sources queries filters aggregations runtime),
       .ok ((pages.map Page.buckets).flatten)) := by
  induction pages generalizing a0 with
  | nil => simp [chainOk] at h
  | cons p rest ih =>
    cases rest with
    | nil =>
      simp only [chainOk, Bool.and_eq_true] at h
      have hfail : p.failures.isEmpty = true := h.1
      have hnone : p.after_key = none := Option.isNone_iff_eq_none.mp h.2
      simp [_elastic_aggregate, hfail, hnone, afterTruthy]
    | cons q rest' =>
      simp only [chainOk, Bool.and_eq_true] at h
      obtain ⟨⟨hfail, htruthy⟩, hchain⟩ := h
      have hrec := ih p.after_key hchain
      simp only [_elastic_aggregate] at hrec
      simp only [_elastic_aggregate, hfail, Bool.not_true, htruthy, hrec]
      simp [List.dropLast, Except.map]

/-- Witness for C3: a two-page stream is drained with two requests (the second
carrying the first page's cursor) and both pages' buckets in order. -/
theorem claim_C3_witness :
    chainOk (be0.composite "i" [("f", BucketSource.terms "f")] [] [] none []) = true ∧
    _elastic_aggregate "i" [("f", BucketSource.terms "f")] [] [] [] [] none
        (be0.composite "i" [("f", BucketSource.terms "f")] [] [] none []) =
      ((none :: (be0.composite "i" [("f", BucketSource.terms "f")] [] [] none
          []).dropLast.map Page.after_key).map
        (compositeRequest "i" [("f", BucketSource.terms "f")] [] [] [] []),
       .ok (((be0.composite "i" [("f", BucketSource.terms "f")] [] [] none
          []).map Page.buckets).flatten)) :=
  ⟨by decide,
   claim_C3 "i" [("f", BucketSource.terms "f")] [] [] [] []
     (be0.composite "i" [("f", BucketSource.terms "f")] [] [] none []) none (by decide)⟩

/-- If pagination reaches a page that reports shard failures (every earlier
page succeeded and carried a truthy cursor), `_elastic_aggregate` errors. -/
theorem elastic_isError_of_failure :
    ∀ (j : Nat) (pages : List Page) (index : String)
      (sources : List (String × BucketSource)) (queries : List (String × String))
      (filters : Filters) (aggregations : List BoundAggregation)
      (runtime : RuntimeMappings) (a0 : Option AfterKey) (p : Page),
    (∀ k, k < j → pageOkTruthy (pages.get? k) = true) →
    pages.get? j = some p → p.failures ≠ [] →
    isError (_elastic_aggregate index sources queries filters aggregations runtime
      a0 pages).2 = true := by
  intro j
  induction j with
  | zero =>
    intro pages index sources queries filters aggregations runtime a0 p _ hj hfail
    cases pages with
    | nil => cases hj
    | cons q rest =>
      have hq : q = p := by simpa using hj
      subst hq
      have : q.failures.isEmpty = false := by
        cases hfe : q.failures.isEmpty
        · rfl
        · exact absurd (List.isEmpty_iff.mp hfe) hfail
      simp [_elastic_aggregate, this, isError]
  | succ j ih =>
    intro pages index sources queries filters aggregations runtime a0 p hreach hj hfail
    cases pages with
    | nil => cases hj
    | cons q rest =>
      have hq : pageOkTruthy (some q) = true := by
        have := hreach 0 (by omega)
        simpa using this
      simp only [pageOkTruthy, Bool.and_eq_true] at hq
      have hrest : rest.get? j = some p := by simpa using hj
      have hreach' : ∀ k, k < j → pageOkTruthy (rest.get? k) = true := by
        intro k hk
        have := hreach (k + 1) (by omega)
        simpa using this
      have hrec := ih rest index sources queries filters aggregations runtime
        q.after_key p hreach' hrest hfail
      simp only [_elastic_aggregate, hq.1, Bool.not_true, hq.2]
      simpa [isError_map] using hrec

/-- Claim C4: if any page reached during paginated aggregation reports
partial shard failures, the whole aggregation fails and the caller of
`query_aggregate` receives no rows at all — not even rows derived from
earlier successfully fetched pages. -/
theorem claim_C4 (im : String → Option IntervalCodec) (ftypes : String → String → String)
    (be : Backend) (index : String) (axes : List Axis) (aggregations : List Aggregation)
    (queries : QueriesInput) (filters : Filters) (sources : List (String × BucketSource))
    (j : Nat) (p : Page)
    (hval : validation_rejects axes = false)
    (hne : axes ≠ [])
    (hnq : ∀ a ∈ axes, a.field ≠ "_query")
    (hsrc : mapME (fun ax => BoundAxis.query im ax)
      (axes.map (fun a => bindAxis ftypes a index)) = .ok sources)
    (hreach : ∀ k, k < j → pageOkTruthy
      ((compositePages im ftypes be index axes aggregations queries filters sources).get? k)
        = true)
    (hj : (compositePages im ftypes be index axes aggregations queries filters
      sources).get? j = some p)
    (hfail : p.failures ≠ []) :
    isError (query_aggregate im ftypes be index axes aggregations queries filters).2
      = true := by
  unfold query_aggregate
  rw [if_neg (by simp [hval])]
  rw [isError_map]
  unfold _aggregate_results
  have hempty : (axes.map (fun a => bindAxis ftypes a index)).isEmpty = false := by
    cases axes with
    | nil => exact absurd rfl hne
    | cons a t => rfl
  have hany : (axes.map (fun a => bindAxis ftypes a index)).any
      (fun ax => ax.field == "_query") = false := by
    rw [List.any_eq_false]
    intro ax hax
    obtain ⟨a, ha, rfl⟩ := List.mem_map.mp hax
    simpa [bindAxis_field] using hnq a ha
  rw [aggregate_loop.eq_def]
  simp only [hempty, Bool.false_eq_true, if_false, hany, hsrc]
  apply isError_bind_of
  exact elastic_isError_of_failure j _ index sources (_normalize_queries queries) filters
    _ _ none p hreach hj hfail

/-- Witness for C4: a stream whose second page fails yields no rows at all,
although the first page was fetched successfully. -/
theorem claim_C4_witness :
    ({ buckets := [], after_key := none, failures := ["shard 0 failed"] } : Page).failures
      ≠ [] ∧
    isError (query_aggregate im0 ft0 beFail "i" [axf] [] (.mapping [("a", "x")]) []).2
      = true :=
  ⟨by decide,
   claim_C4 im0 ft0 beFail "i" [axf] [] (.mapping [("a", "x")]) []
     [("f", BucketSource.terms "f")] 1
     { buckets := [], after_key := none, failures := ["shard 0 failed"] }
     (by decide) (by decide) (by decide) (by decide) (by decide) (by decide) (by decide)⟩

/-- Claim C5: every row of every `AggregateResult` produced by
`query_aggregate` — via composite pagination, `_query` fan-out, or the
axis-less scalar path — has length `len(axes) + 1 + len(aggregations)`,
where `axes` is the full supplied axis list including any `_query` axis. -/
theorem claim_C5 (im : String → Option IntervalCodec) (ftypes : String → String → String)
    (be : Backend) (index : String) (axes : List Axis) (aggregations : List Aggregation)
    (queries : QueriesInput) (filters : Filters) (res : AggregateResult)
    (h : (query_aggregate im ftypes be index axes aggregations queries filters).2 = .ok res) :
    res.data.all (fun row => row.length == axes.length + 1 + aggregations.length) = true := by
  unfold query_aggregate at h
  by_cases hv : validation_rejects axes = true
  · rw [if_pos hv] at h; cases h
  · rw [if_neg hv] at h
    dsimp only at h
    cases hr : (_aggregate_results im be index (axes.map (fun a => bindAxis ftypes a index))
        (_normalize_queries queries) filters
        (aggregations.map (fun a => bindAggregation ftypes a index))).2 with
    | error e => rw [hr] at h; cases h
    | ok data =>
      rw [hr] at h
      simp only [Except.map, Except.ok.injEq] at h
      subst h
      unfold _aggregate_results at hr
      have hw := aggregate_loop_width (axes.map (fun a => bindAxis ftypes a index)).length
        (axes.map (fun a => bindAxis ftypes a index)) le_rfl im be index
        (_normalize_queries queries) filters
        (aggregations.map (fun a => bindAggregation ftypes a index)) data hr
      rw [List.all_eq_true]
      intro row hrow
      rw [beq_iff_eq]
      have := hw row hrow
      simpa using this

/-- Witness for C5: on the two-page fixture every row has width
`1 axis + 1 count + 0 aggregations = 2`. -/
theorem claim_C5_witness :
    (query_aggregate im0 ft0 be0 "i" [axf] [] (.mapping [("a", "x")]) []).2 = .ok resC5 ∧
    resC5.data.all
      (fun row => row.length == [axf].length + 1 + ([] : List Aggregation).length) = true :=
  ⟨by decide,
   claim_C5 im0 ft0 be0 "i" [axf] [] (.mapping [("a", "x")]) [] resC5 (by decide)⟩

/-- Claim C2: with exactly one `_query` axis, at position `i`, every row of
`query_aggregate` is the corresponding row of the reduced pipeline (the axis
list with the `_query` axis removed, run on one named query at a time) with
the query label inserted at position `i`; rows of different labels are
concatenated in the insertion order of the named-query mapping. -/
theorem claim_C2 (im : String → Option IntervalCodec) (ftypes : String → String → String)
    (be : Backend) (index : String) (axes : List Axis) (aggregations : List Aggregation)
    (qmap : List (String × String)) (filters : Filters) (i : Nat) (hi : i < axes.length)
    (hlen : axes.length ≤ 2)
    (hq : (axes.get ⟨i, hi⟩).field = "_query")
    (hothers : ∀ j (hj : j < axes.length), j ≠ i → (axes.get ⟨j, hj⟩).field ≠ "_query") :
    ((query_aggregate im ftypes be index axes aggregations (.mapping qmap) filters).2).map
        AggregateResult.data =
      (mapME (fun lq =>
        ((_aggregate_results im be index
            ((axes.map (fun a => bindAxis ftypes a index)).take i ++
             (axes.map (fun a => bindAxis ftypes a index)).drop (i + 1))
            [lq] filters (aggregations.map (fun a => bindAggregation ftypes a index))).2).map
          (List.map (fun t => t.take i ++ EValue.vstr lq.1 :: t.drop i))) qmap).map
        List.flatten := by
  have hv : validation_rejects axes = false := by
    cases hvb : validation_rejects axes
    · rfl
    · exact absurd ((validation_rejects_iff axes).mp hvb) (by omega)
  unfold query_aggregate
  rw [if_neg (by simp [hv])]
  dsimp only
  rw [exceptMap_map]
  rw [show (fun (x : List (List EValue)) =>
      AggregateResult.data (AggregateResult.mk (axes.map (fun a => bindAxis ftypes a index))
        (aggregations.map (fun a => bindAggregation ftypes a index)) x "n")) =
      (fun x => x) from rfl]
  rw [exceptMap_id]
  unfold _aggregate_results
  have hil : i < (axes.map (fun a => bindAxis ftypes a index)).length := by simpa using hi
  have hgete : (axes.map (fun a => bindAxis ftypes a index)).get ⟨i, hil⟩ =
      bindAxis ftypes (axes.get ⟨i, hi⟩) index := by
    simp [List.get_eq_getElem, List.getElem_map]
  have hne : (axes.map (fun a => bindAxis ftypes a index)).isEmpty = false := by
    cases axes with
    | nil => simp at hi
    | cons a t => rfl
  have hpi : (((axes.map (fun a => bindAxis ftypes a index)).get ⟨i, hil⟩).field
      == "_query") = true := by
    rw [hgete, bindAxis_field, hq]
    decide
  have hany : (axes.map (fun a => bindAxis ftypes a index)).any
      (fun ax => ax.field == "_query") = true :=
    List.any_eq_true.mpr ⟨_, List.get_mem _ i hil, hpi⟩
  have hfind : (axes.map (fun a => bindAxis ftypes a index)).findIdx
      (fun ax => ax.field == "_query") = i := by
    apply findIdx_eq_of_first _ _ i hil hpi
    intro j hj hlt
    have hj' : j < axes.length := by simpa using hj
    have hje : (axes.map (fun a => bindAxis ftypes a index)).get ⟨j, hj⟩ =
        bindAxis ftypes (axes.get ⟨j, hj'⟩) index := by
      simp [List.get_eq_getElem, List.getElem_map]
    rw [hje, bindAxis_field]
    exact beq_eq_false_iff_ne.mpr (hothers j hj' (by omega))
  obtain ⟨m, hm⟩ : ∃ m, (axes.map (fun a => bindAxis ftypes a index)).length = m + 1 :=
    ⟨(axes.map (fun a => bindAxis ftypes a index)).length - 1, by
      simp only [List.length_map]; omega⟩
  rw [aggregate_loop.eq_def, hm]
  simp only [hne, Bool.false_eq_true, if_false, hany, if_true, hfind]
  rw [seqResults_snd, mapME_map]
  refine congrArg (Except.map List.flatten) ?_
  apply mapME_congr
  intro lq _
  dsimp only
  have hlen2 : ((axes.map (fun a => bindAxis ftypes a index)).take i ++
      (axes.map (fun a => bindAxis ftypes a index)).drop (i + 1)).length = m := by
    simp only [List.length_append, List.length_take, List.length_drop, List.length_map]
    simp only [List.length_map] at hm
    omega
  rw [hlen2]

/-- Witness for C2: axes `[f, _query]` with two named queries — the rows of
the reduced single-axis pipeline get the label inserted at position 1, label
blocks concatenated in mapping order. -/
theorem claim_C2_witness :
    ((query_aggregate im0 ft0 be0 "i" [axf, qax] []
        (.mapping [("a", "x"), ("b", "y")]) []).2).map AggregateResult.data =
      (mapME (fun lq =>
        ((_aggregate_results im0 be0 "i"
            (([axf, qax].map (fun a => bindAxis ft0 a "i")).take 1 ++
             ([axf, qax].map (fun a => bindAxis ft0 a "i")).drop 2)
            [lq] [] (([] : List Aggregation).map (fun a => bindAggregation ft0 a "i"))).2).map
          (List.map (fun t => t.take 1 ++ EValue.vstr lq.1 :: t.drop 1)))
        [("a", "x"), ("b", "y")]).map List.flatten :=
  claim_C2 im0 ft0 be0 "i" [axf, qax] [] [("a", "x"), ("b", "y")] [] 1 (by decide)
    (by decide) (by decide) (by decide)

/-- Claim C8, evaluated at the failing input: with zero axes, an aggregation,
and neither queries nor filters, the body falls back to the bare match-all
dict (`aggregate.py:161`), whose `query` subscript raises `KeyError` before
any backend call — zero calls, no row — where the claim demands exactly two
backend calls and the row `(count, metric)`.  With a query supplied, the
claimed behavior does hold: the metric search and the count call, and the
single row `(count, metric)` in aggregation order. -/
theorem claim_C8_eval :
    query_aggregate im0 ft0 be0 "i" [] [aggAvg] .q_none [] =
      ([], .error "KeyError: query") ∧
    query_aggregate im0 ft0 be0 "i" [] [aggAvg] (.mapping [("a", "x")]) [] =
      ([Call.search_metrics "i" (QueryBody.built ["x"] []) [("avg_f", ("avg", "f"))],
        Call.count "i" (QueryBody.built ["x"] [])],
       .ok { axes := [],
             aggregations := [bindAggregation ft0 aggAvg "i"],
             data := [[EValue.vint 42, EValue.vint 7]], count_column := "n" }) ∧
    query_aggregate im0 ft0 be0 "i" [] [] .q_none [] =
      ([Call.count "i" (QueryBody.built [] [])],
       .ok { axes := [], aggregations := [], data := [[EValue.vint 42]],
             count_column := "n" }) := by
  decide

end Amcat4
